import Mathlib

/-!
Verification of the crypto-news-agent frontend streaming client.

This file shallowly embeds the TypeScript sources:
* `askQuestionStream` (the SSE stream decoder in the API client module),
* `ChatPage` / `ChatInput` (the React chat page: message list, streaming
  handlers, cancellation, and the input submit guard).

JavaScript strings are modelled as `String` / `List Char`; `JSON.parse` is
modelled by a small executable JSON reader covering the payload grammar the
protocol uses (objects, arrays, strings, booleans, `null`; string escapes and
numbers do not occur in the modelled payloads and make the reader fail, which
is conservative for every theorem below since each either assumes a parse
result or evaluates on payloads inside the covered grammar).
-/

namespace CryptoNews

/-- JSON values as returned by `JSON.parse` (the subset used by the protocol). -/
inductive JsVal : Type
| str : String → JsVal
| arr : List JsVal → JsVal
| obj : List (String × JsVal) → JsVal
| jbool : Bool → JsVal
| null : JsVal

/-- JavaScript truthiness of a defined value. -/
def jsTruthyV : JsVal → Bool
| JsVal.str s => !(s == "")
| JsVal.arr _ => true
| JsVal.obj _ => true
| JsVal.jbool b => b
| JsVal.null => false

/-- JavaScript truthiness, `none` standing for `undefined`. -/
def jsTruthy : Option JsVal → Bool
| none => false
| some v => jsTruthyV v

/-- Object field lookup; on duplicate keys `JSON.parse` keeps the last one. -/
def jsGetKvs (kvs : List (String × JsVal)) (k : String) : Option JsVal :=
  kvs.foldl (fun acc p => if p.1 == k then some p.2 else acc) none

/-- `v[k]`: field access on a parsed value (`undefined` off objects). -/
def jsGet : JsVal → String → Option JsVal
| JsVal.obj kvs, k => jsGetKvs kvs k
| _, _ => none

/-- Whitespace recognised by `String.prototype.trim` (ASCII part). -/
def isJsWs (c : Char) : Bool :=
  c == ' ' || c == '\t' || c == '\n' || c == '\r' || c == '\x0b' || c == '\x0c'

/-- `String.prototype.trim` on character lists. -/
def jsTrim (cs : List Char) : List Char :=
  ((cs.dropWhile isJsWs).reverse.dropWhile isJsWs).reverse

/-- `String.prototype.trim` on strings. -/
def jsTrimS (s : String) : String := String.mk (jsTrim s.toList)

/-- Read the body of a JSON string after its opening quote (no escapes:
the modelled payloads contain none; a backslash makes the reader fail). -/
def pStrChars : List Char → Option (List Char × List Char)
| [] => none
| c :: rest =>
  if c == '"' then some ([], rest)
  else if c == '\\' then none
  else
    match pStrChars rest with
    | some (s, r) => some (c :: s, r)
    | none => none

/-- Skip JSON whitespace. -/
def dropWs (cs : List Char) : List Char := cs.dropWhile isJsWs

mutual

/-- Fuel-indexed JSON value reader (model of `JSON.parse`). -/
def pVal : Nat → List Char → Option (JsVal × List Char)
| 0, _ => none
| Nat.succ fuel, cs =>
  match dropWs cs with
  | '"' :: rest =>
    (match pStrChars rest with
     | some (s, r) => some (JsVal.str (String.mk s), r)
     | none => none)
  | '[' :: rest =>
    (match dropWs rest with
     | ']' :: r2 => some (JsVal.arr [], r2)
     | _ =>
       match pArrItems fuel rest with
       | some (xs, r2) => some (JsVal.arr xs, r2)
       | none => none)
  | '\x7b' :: rest =>
    (match dropWs rest with
     | '\x7d' :: r2 => some (JsVal.obj [], r2)
     | _ =>
       match pObjItems fuel rest with
       | some (kvs, r2) => some (JsVal.obj kvs, r2)
       | none => none)
  | 'n' :: 'u' :: 'l' :: 'l' :: rest => some (JsVal.null, rest)
  | 't' :: 'r' :: 'u' :: 'e' :: rest => some (JsVal.jbool true, rest)
  | 'f' :: 'a' :: 'l' :: 's' :: 'e' :: rest => some (JsVal.jbool false, rest)
  | _ => none

/-- Comma-separated array items up to the closing bracket. -/
def pArrItems : Nat → List Char → Option (List JsVal × List Char)
| 0, _ => none
| Nat.succ fuel, cs =>
  match pVal fuel cs with
  | some (v, r) =>
    (match dropWs r with
     | ',' :: r2 =>
       (match pArrItems fuel r2 with
        | some (xs, r3) => some (v :: xs, r3)
        | none => none)
     | ']' :: r2 => some ([v], r2)
     | _ => none)
  | none => none

/-- Comma-separated object entries up to the closing brace. -/
def pObjItems : Nat → List Char → Option (List (String × JsVal) × List Char)
| 0, _ => none
| Nat.succ fuel, cs =>
  match dropWs cs with
  | '"' :: rest =>
    (match pStrChars rest with
     | some (k, r) =>
       (match dropWs r with
        | ':' :: r2 =>
          (match pVal fuel r2 with
           | some (v, r3) =>
             (match dropWs r3 with
              | ',' :: r4 =>
                (match pObjItems fuel r4 with
                 | some (kvs, r5) => some ((String.mk k, v) :: kvs, r5)
                 | none => none)
              | '\x7d' :: r4 => some ([(String.mk k, v)], r4)
              | _ => none)
           | none => none)
        | _ => none)
     | none => none)
  | _ => none

end

/-- `JSON.parse`: a whole JSON text, allowing trailing whitespace only. -/
def jsonParse (cs : List Char) : Option JsVal :=
  match pVal (cs.length + 1) cs with
  | some (v, r) => if dropWs r == ([] : List Char) then some v else none
  | none => none

/-- One handler invocation made by `askQuestionStream`:
`onChunk(data.chunk)`, `onComplete(data.sources, data.session_id)`,
or `onError(...)`. -/
inductive HandlerCall : Type
| chunk : JsVal → HandlerCall
| complete : JsVal → Option JsVal → HandlerCall
| error : JsVal → HandlerCall

/-- JavaScript `a || b` on a possibly-undefined value (used for
`data.error || 'Unknown error'`). -/
def jsOrElse (o : Option JsVal) (dflt : JsVal) : JsVal :=
  match o with
  | some v => if jsTruthyV v then v else dflt
  | none => dflt

/-- The event dispatch of `askQuestionStream` once `JSON.parse` succeeded:
```
if (currentEvent === 'answer_chunk' && data.chunk)            onChunk(data.chunk)
else if (currentEvent === 'answer_complete' && data.sources)  onComplete(data.sources, data.session_id)
else if (currentEvent === 'error')                            onError(data.error || 'Unknown error')
```
-/
def dispatchParsed (ev : List Char) (j : JsVal) : List HandlerCall :=
  if ev == "answer_chunk".toList && jsTruthy (jsGet j "chunk") then
    [HandlerCall.chunk ((jsGet j "chunk").getD JsVal.null)]
  else if ev == "answer_complete".toList && jsTruthy (jsGet j "sources") then
    [HandlerCall.complete ((jsGet j "sources").getD JsVal.null) (jsGet j "session_id")]
  else if ev == "error".toList then
    [HandlerCall.error (jsOrElse (jsGet j "error") (JsVal.str "Unknown error"))]
  else []

/-- Handling of one `data: ` line (`rawTail` is the text after `data: `):
`currentData = line.slice(6).trim()`, then dispatch only when both
`currentData` and `currentEvent` are truthy (non-empty) and the JSON parses;
a parse failure is logged and produces no call. -/
def dispatchData (ev rawTail : List Char) : List HandlerCall :=
  if !(jsTrim rawTail == ([] : List Char)) && !(ev == ([] : List Char)) then
    match jsonParse (jsTrim rawTail) with
    | some j => dispatchParsed ev j
    | none => []
  else []

/-- `needle.isPrefixOf hay` — JavaScript `hay.startsWith(needle)`. -/
def listPfx : List Char → List Char → Bool
| [], _ => true
| _ :: _, [] => false
| a :: as, b :: bs => a == b && listPfx as bs

/-- `needle` occurs contiguously in `hay` — JavaScript `hay.includes(needle)`. -/
def listSub (needle : List Char) : List Char → Bool
| [] => listPfx needle []
| b :: tl => listPfx needle (b :: tl) || listSub needle tl

/-- The `for (const line of lines)` loop of `askQuestionStream`: `ev` is
`currentEvent`, set by `event: ` lines and read by `data: ` lines. -/
def processLines : List Char → List (List Char) → List HandlerCall
| _, [] => []
| ev, line :: rest =>
  if listPfx "event: ".toList line then
    processLines (jsTrim (line.drop 7)) rest
  else if listPfx "data: ".toList line then
    dispatchData ev (line.drop 6) ++ processLines ev rest
  else
    processLines ev rest

/-- JavaScript `str.split('\n')` (keeps empty segments). -/
def splitOnNl : List Char → List (List Char)
| [] => [[]]
| c :: rest =>
  if c == '\n' then [] :: splitOnNl rest
  else
    match splitOnNl rest with
    | [] => [[c]]
    | h :: t => (c :: h) :: t

/-- One iteration of the `while (true)` read loop on one decoded read:
`currentEvent` and `currentData` are re-declared empty for every read, so
nothing is carried over between reads. -/
def processRead (r : String) : List HandlerCall :=
  processLines [] (splitOnNl r.toList)

/-- The full sequence of handler invocations `askQuestionStream` makes for a
response body delivered as the given sequence of reads (each element is the
text decoded from one `reader.read()`), when no exception interrupts the loop. -/
def decodeReads (reads : List String) : List HandlerCall :=
  (reads.map processRead).flatten

/-- `askQuestionStream` when the caller aborts after `n` reads have been
delivered: the pending `reader.read()` rejects with `AbortError`, control
transfers to the `catch` block, which calls `onError('Request cancelled')`;
when the loop has already finished on `done` before the abort, no read is
pending and no further handler runs. -/
def runReadsAborted : List String → Nat → List HandlerCall
| _, 0 => [HandlerCall.error (JsVal.str "Request cancelled")]
| [], Nat.succ _ => []
| r :: rs, Nat.succ n => processRead r ++ runReadsAborted rs n

/-- A character list containing no newline (one field of an event block). -/
def noNl (cs : List Char) : Bool := cs.all (fun c => !(c == '\n'))

/-- Server-side encoding of one event block (spec §4.6): event-type line,
data line, blank-line terminator. -/
def serializeEvent (t d : List Char) : List Char :=
  ("event: ".toList ++ t) ++ '\n' :: (("data: ".toList ++ d) ++ '\n' :: '\n' :: [])

/-- A whole response body made of consecutive event blocks. -/
def serializeAll : List (List Char × List Char) → List Char
| [] => []
| e :: rest => serializeEvent e.1 e.2 ++ serializeAll rest

/-- The calls one serialized event block produces: the `event: ` line sets
`currentEvent` to the trimmed event type, the `data: ` line dispatches. -/
def evDispatch (t d : List Char) : List HandlerCall := dispatchData (jsTrim t) d

/-- Well-formed event fields: neither the type nor the data spans lines. -/
def evsWf (evs : List (List Char × List Char)) : Prop :=
  ∀ e ∈ evs, noNl e.1 = true ∧ noNl e.2 = true

/-- Classification of handler calls. -/
def isChunkCall : HandlerCall → Bool
| HandlerCall.chunk _ => true
| _ => false

/-- `onComplete` calls. -/
def isCompleteCall : HandlerCall → Bool
| HandlerCall.complete _ _ => true
| _ => false

/-- Terminal notifications: `onComplete` or `onError`. -/
def isTerminalCall : HandlerCall → Bool
| HandlerCall.complete _ _ => true
| HandlerCall.error _ => true
| HandlerCall.chunk _ => false

/-- No handler invocation follows the first terminal notification. -/
def noCallAfterTerminal : List HandlerCall → Bool
| [] => true
| c :: rest => if isTerminalCall c then rest.isEmpty else noCallAfterTerminal rest

/-- The chunk strings delivered to `onChunk`, in order. -/
def chunkTexts : List HandlerCall → List String
| [] => []
| HandlerCall.chunk (JsVal.str s) :: rest => s :: chunkTexts rest
| _ :: rest => chunkTexts rest

/-- JSON text `{"chunk":"<c>"}` of an `answer_chunk` payload. -/
def jsonChunkData (c : List Char) : List Char :=
  "\x7b\"chunk\":\"".toList ++ c ++ "\"\x7d".toList

/-- A serialized `answer_chunk` event carrying the chunk text `c`. -/
def chunkEv (c : List Char) : List Char × List Char :=
  ("answer_chunk".toList, jsonChunkData c)

/-- A serialized `answer_complete` event with an empty source list. -/
def completeEv : List Char × List Char :=
  ("answer_complete".toList, "\x7b\"sources\":[],\"session_id\":\"s\"\x7d".toList)

/-- Characters allowed in a modelled chunk payload: no quote, no backslash,
no newline (`JSON.stringify` would escape these; escapes are outside the
modelled grammar). -/
def cleanChar (c : Char) : Bool := !(c == '"') && !(c == '\\') && !(c == '\n')

/-- Concatenation of a list of strings in order. -/
def strConcat : List String → String
| [] => ""
| s :: rest => s ++ strConcat rest

/-- A `ChatMessage` of `ChatPage`'s local state. -/
structure Msg : Type where
  id : String
  message : String
  isUser : Bool
  timestamp : String
  sources : Option JsVal
  isStreaming : Bool

/-- One turn of the `chat_history` request field. -/
structure HistTurn : Type where
  role : String
  content : String
  timestamp : String
deriving DecidableEq

/-- The error placeholder text `ChatPage` writes into a failed message. -/
def errPlaceholder : String :=
  "Sorry, I encountered an error while processing your question. Please try again."

/-- The cancellation placeholder text. -/
def cancelPlaceholder : String := "Generation cancelled by user."

/-- The history filter of `handleStreamingResponse`: a message is excluded
when its text contains either placeholder fragment (JS `includes`). -/
def isExcludedMsg (m : Msg) : Bool :=
  listSub "Sorry, I encountered an error".toList m.message.toList ||
  listSub "Generation cancelled by user".toList m.message.toList

/-- Mapping a stored message to a `chat_history` turn. -/
def toTurn (m : Msg) : HistTurn :=
  ⟨if m.isUser then "user" else "assistant", m.message, m.timestamp⟩

/-- `chatHistory` as built by `handleStreamingResponse` (filter then map). -/
def chatHistoryOf (msgs : List Msg) : List HistTurn :=
  (msgs.filter (fun m => !(isExcludedMsg m))).map toTurn

/-- Modelled from the claim's words, for comparison with `chatHistoryOf`:
the history would be all prior messages excluding exactly the error and
cancellation placeholder messages themselves. -/
def chatHistorySpec (msgs : List Msg) : List HistTurn :=
  (msgs.filter (fun m =>
    !(m.message == errPlaceholder || m.message == cancelPlaceholder))).map toTurn

/-- The assistant placeholder appended by `handleStreamingResponse` before
the stream starts (empty text, streaming flag set). -/
def tempMsg (tid ts : String) : Msg := ⟨tid, "", false, ts, none, true⟩

/-- `ChatPage`'s `onChunk` callback: map over the list, appending the chunk
to the message carrying the temporary id
(`prev.find(m => m.id === tempMessageId)?.message + chunk || chunk`; when the
lookup succeeds this is `found.message + chunk`, an undefined lookup would
stringify to `"undefined" + chunk`). -/
def onChunkUpdate (tid : String) (msgs : List Msg) (chunk : String) : List Msg :=
  msgs.map fun m =>
    if m.id == tid then
      { m with message :=
          match msgs.find? (fun x => x.id == tid) with
          | some x => x.message ++ chunk
          | none => "undefined" ++ chunk }
    else m

/-- `ChatPage`'s `onComplete` callback effect on the message list: attach the
sources and clear the streaming flag on the temporary message. -/
def onCompleteUpdate (tid : String) (srcs : JsVal) (msgs : List Msg) : List Msg :=
  msgs.map fun m =>
    if m.id == tid then { m with sources := some srcs, isStreaming := false } else m

/-- `ChatInput.handleSubmit`: sends the trimmed text only when it is truthy
(non-empty) and the input is neither loading nor disabled; returns the
question passed to `onSendMessage`, or `none` when nothing is sent. -/
def chatInputSubmit (message : String) (isLoading isDisabled : Bool) : Option String :=
  if !(jsTrimS message == "") && !isLoading && !isDisabled then
    some (jsTrimS message)
  else none

/-- The `ChatPage` component state; the `AbortController` is modelled by an
identifier, `none` standing for the null controller. -/
structure PageState : Type where
  messages : List Msg
  sessionId : String
  isStreaming : Bool
  currentStreamingMessage : String
  abortController : Option Nat

/-- `handleStopGeneration`: null-guarded; aborts the controller, clears the
streaming state and the controller, and closes any still-streaming message
with the cancellation note. -/
def handleStopGeneration (s : PageState) : PageState :=
  match s.abortController with
  | none => s
  | some _ =>
    { s with
      isStreaming := false
      currentStreamingMessage := ""
      abortController := none
      messages := s.messages.map fun m =>
        if m.isStreaming then
          { m with
            message := m.message ++ "\n\nGeneration cancelled by user."
            isStreaming := false }
        else m }

/-- A user message as appended by `handleSendMessage`. -/
def userMsg (uid text ts : String) : Msg := ⟨uid, text, true, ts, none, false⟩

/-- `ChatPage`'s error callback classification of a cancellation. -/
def isCancellationMsg (e : String) : Bool :=
  e == "Request cancelled" ||
  listSub "cancelled".toList e.toList ||
  listSub "aborted".toList e.toList

/-- External events driving `ChatPage`: a submit from `ChatInput` (with the
fresh ids, timestamp and controller the handlers would generate), the
terminal stream callbacks bound to the in-flight temporary message, and the
Stop button. -/
inductive PageEvent : Type
| submit : String → String → String → String → Nat → PageEvent
| streamComplete : String → JsVal → PageEvent
| streamError : String → String → PageEvent
| stop : PageEvent

/-- One step of the `ChatPage` state machine.  `submit` is `ChatInput`'s
submit guard (`isLoading` and `disabled` are both wired to `isStreaming`)
followed by `handleSendMessage` and the start of `handleStreamingResponse`;
the terminal stream callbacks settle the temporary message and reset the
streaming state; `stop` is `handleStopGeneration`. -/
def stepPage (s : PageState) (e : PageEvent) : PageState :=
  match e with
  | PageEvent.submit text uid tid ts ctrl =>
    (match chatInputSubmit text s.isStreaming s.isStreaming with
     | none => s
     | some q =>
       { s with
         messages := (s.messages ++ [userMsg uid q ts]) ++ [tempMsg tid ts]
         isStreaming := true
         currentStreamingMessage := ""
         abortController := some ctrl })
  | PageEvent.streamComplete tid srcs =>
    { s with
      messages := onCompleteUpdate tid srcs s.messages
      isStreaming := false
      currentStreamingMessage := ""
      abortController := none }
  | PageEvent.streamError tid err =>
    { s with
      messages := s.messages.map fun m =>
        if m.id == tid then
          { m with
            message := (if isCancellationMsg err then cancelPlaceholder else errPlaceholder)
            isStreaming := false }
        else m
      isStreaming := false
      currentStreamingMessage := ""
      abortController := none }
  | PageEvent.stop => handleStopGeneration s

/-- No leading whitespace (and, applied to the reversal, no trailing one). -/
def edgeOk : List Char → Bool
| [] => true
| c :: _ => !(isJsWs c)

/-- A response body carrying two `answer_complete` events. -/
def twoCompleteStream : String :=
  "event: answer_complete\ndata: \x7b\"sources\":[],\"session_id\":\"s\"\x7d\n\nevent: answer_complete\ndata: \x7b\"sources\":[],\"session_id\":\"s\"\x7d\n\n"

/-- A user message whose text happens to contain the error-placeholder
fragment without being a placeholder. -/
def oddUserMsg : Msg :=
  ⟨"u1", "Sorry, I encountered an error", true, "2024-01-01T00:00:00Z", none, false⟩

/-- An ordinary user message. -/
def plainUserMsg : Msg :=
  ⟨"u2", "What is bitcoin?", true, "2024-01-01T00:00:01Z", none, false⟩

/-!  ## Theorems  -/

/-- C1: the claim states that `askQuestionStream` keeps a carry-over buffer
across reads so that the handler sequence is independent of how the network
splits the bytes.  The code keeps no such buffer: the very same byte stream
`event: answer_chunk\ndata: {"chunk":"hi"}\n\n` yields `onChunk("hi")` when
delivered in one read, and yields no handler invocation at all when split in
the middle of the data line — the partial line is parsed as if complete, its
JSON parse fails and the event is dropped, and the second fragment matches no
line marker.  This evaluates the embedded code at both inputs. -/
theorem c1_decoder_not_split_invariant :
    decodeReads ["event: answer_chunk\ndata: \x7b\"chunk\":\"hi\"\x7d\n\n"] =
      [HandlerCall.chunk (JsVal.str "hi")] ∧
    decodeReads ["event: answer_chunk\ndata: \x7b\"ch", "unk\":\"hi\"\x7d\n\n"] =
      ([] : List HandlerCall) ∧
    "event: answer_chunk\ndata: \x7b\"ch" ++ "unk\":\"hi\"\x7d\n\n" =
      "event: answer_chunk\ndata: \x7b\"chunk\":\"hi\"\x7d\n\n" :=
  ⟨rfl, rfl, rfl⟩

/-- `String.mk` and `String.toList` are inverse. -/
theorem toList_mk (l : List Char) : (String.mk l).toList = l := rfl

/-- `noNl` distributes over append. -/
theorem noNl_append (a b : List Char) : noNl (a ++ b) = (noNl a && noNl b) := by
  simp [noNl]

/-- `splitOnNl` always returns at least one segment. -/
theorem splitOnNl_ne_nil (cs : List Char) : splitOnNl cs ≠ [] := by
  induction cs with
  | nil => simp [splitOnNl]
  | cons c t ih =>
    cases hc : (c == '\n') with
    | true => simp [splitOnNl, hc]
    | false =>
      cases hs : splitOnNl t with
      | nil => simp [splitOnNl, hc, hs]
      | cons h r => simp [splitOnNl, hc, hs]

/-- Splitting after a newline-free block merges the block into the first
segment of the remainder's split. -/
theorem splitOnNl_append (a cs : List Char) (ha : noNl a = true) :
    ∀ h r, splitOnNl cs = h :: r → splitOnNl (a ++ cs) = (a ++ h) :: r := by
  induction a with
  | nil =>
    intro h r hs
    simpa using hs
  | cons x a ih =>
    intro h r hs
    simp only [noNl, List.all_cons, Bool.and_eq_true, Bool.not_eq_true'] at ha
    have hrec := ih ha.2 h r hs
    simp [splitOnNl, ha.1, hrec]

/-- Splitting at a leading newline yields an empty first segment. -/
theorem splitOnNl_cons_nl (cs : List Char) :
    splitOnNl ('\n' :: cs) = [] :: splitOnNl cs := by
  simp [splitOnNl]

/-- The line decomposition of one serialized event block. -/
theorem splitOnNl_serializeEvent (t d : List Char) (rest : List Char)
    (ht : noNl t = true) (hd : noNl d = true) :
    splitOnNl (serializeEvent t d ++ rest) =
      ("event: ".toList ++ t) :: ("data: ".toList ++ d) :: ([] : List Char) ::
        splitOnNl rest := by
  have hevl : noNl ("event: ".toList ++ t) = true := by
    rw [noNl_append, ht, Bool.and_true]; rfl
  have hdl : noNl ("data: ".toList ++ d) = true := by
    rw [noNl_append, hd, Bool.and_true]; rfl
  have e1 : splitOnNl ('\n' :: '\n' :: rest) = [] :: [] :: splitOnNl rest := by
    rw [splitOnNl_cons_nl, splitOnNl_cons_nl]
  have e2 : splitOnNl (("data: ".toList ++ d) ++ '\n' :: '\n' :: rest) =
      ("data: ".toList ++ d) :: [] :: splitOnNl rest := by
    have h := splitOnNl_append ("data: ".toList ++ d) ('\n' :: '\n' :: rest) hdl
      [] ([] :: splitOnNl rest) e1
    rw [List.append_nil] at h
    exact h
  have e3 : splitOnNl ('\n' :: (("data: ".toList ++ d) ++ '\n' :: '\n' :: rest)) =
      [] :: ("data: ".toList ++ d) :: [] :: splitOnNl rest := by
    rw [splitOnNl_cons_nl, e2]
  have e4 := splitOnNl_append ("event: ".toList ++ t)
    ('\n' :: (("data: ".toList ++ d) ++ '\n' :: '\n' :: rest)) hevl
    [] (("data: ".toList ++ d) :: [] :: splitOnNl rest) e3
  rw [List.append_nil] at e4
  have harr : serializeEvent t d ++ rest =
      ("event: ".toList ++ t) ++
        ('\n' :: (("data: ".toList ++ d) ++ '\n' :: '\n' :: rest)) := by
    simp [serializeEvent]
  rw [harr, e4]

/-- Processing the three lines of one event block: the `event: ` line sets
`currentEvent := t.trim()`, the `data: ` line dispatches, the blank line is
skipped.  The line markers and `slice` offsets all compute away. -/
theorem processLines_eventBlock (ev t d : List Char) (rest : List (List Char)) :
    processLines ev
        (("event: ".toList ++ t) :: ("data: ".toList ++ d) :: ([] : List Char) :: rest) =
      evDispatch t d ++ processLines (jsTrim t) rest :=
  rfl

/-- The decoder is, on whole well-formed event blocks, the per-event dispatch
in stream order. -/
theorem decode_serializeAll :
    ∀ (evs : List (List Char × List Char)) (ev : List Char), evsWf evs →
      processLines ev (splitOnNl (serializeAll evs)) =
        (evs.map fun e => evDispatch e.1 e.2).flatten := by
  intro evs
  induction evs with
  | nil =>
    intro ev _
    simp [serializeAll, splitOnNl, processLines, listPfx]
  | cons e evs ih =>
    intro ev h
    obtain ⟨t, d⟩ := e
    have ht : noNl t = true := (h (t, d) (by simp)).1
    have hd : noNl d = true := (h (t, d) (by simp)).2
    have hrest : evsWf evs := fun x hx => h x (by simp [hx])
    rw [show serializeAll ((t, d) :: evs) = serializeEvent t d ++ serializeAll evs from rfl]
    rw [splitOnNl_serializeEvent t d _ ht hd, processLines_eventBlock]
    rw [ih (jsTrim t) hrest]
    simp

/-- A trace of non-terminal calls followed by one final call never continues
past a terminal notification. -/
theorem noCallAfterTerminal_append_singleton (xs : List HandlerCall)
    (hx : xs.all (fun c => !(isTerminalCall c)) = true) (c : HandlerCall) :
    noCallAfterTerminal (xs ++ [c]) = true := by
  induction xs with
  | nil => cases c <;> simp [noCallAfterTerminal, isTerminalCall]
  | cons x xs ih =>
    simp only [List.all_cons, Bool.and_eq_true, Bool.not_eq_true'] at hx
    simp [noCallAfterTerminal, hx.1, ih hx.2]

/-- C2 counterexample: the claim says `askQuestionStream` delivers at most one
terminal notification per decoded request stream *even if more events arrive
afterwards*.  The decoder enforces no such thing: a response body carrying two
`answer_complete` blocks produces two `onComplete` invocations. -/
theorem c2_counterexample :
    (decodeReads [twoCompleteStream]).countP isTerminalCall = 2 ∧
    ¬ ((decodeReads [twoCompleteStream]).countP isTerminalCall ≤ 1) := by
  exact ⟨rfl, by decide⟩

/-- C2 (amended): the decoder itself does not suppress post-terminal events —
it dispatches every well-formed event block in stream order; therefore, when
the incoming stream consists of non-terminal-dispatching events followed by
one final event (as the server protocol guarantees), at most one terminal
notification is delivered and no handler is invoked after it. -/
theorem c2_decoder_dispatches_in_order
    (evs : List (List Char × List Char)) (t d : List Char) (c : HandlerCall)
    (hwf : evsWf evs) (ht : noNl t = true) (hd : noNl d = true)
    (hpre : ∀ e ∈ evs, (evDispatch e.1 e.2).all (fun x => !(isTerminalCall x)) = true)
    (hterm : evDispatch t d = [c]) :
    decodeReads [String.mk (serializeAll (evs ++ [(t, d)]))] =
      ((evs.map fun e => evDispatch e.1 e.2).flatten) ++ [c] ∧
    noCallAfterTerminal (decodeReads [String.mk (serializeAll (evs ++ [(t, d)]))]) = true ∧
    (decodeReads [String.mk (serializeAll (evs ++ [(t, d)]))]).countP isTerminalCall ≤ 1 := by
  have hwf2 : evsWf (evs ++ [(t, d)]) := by
    intro e he
    rcases List.mem_append.1 he with h1 | h1
    · exact hwf e h1
    · simp only [List.mem_singleton] at h1
      subst h1
      exact ⟨ht, hd⟩
  have hdec : decodeReads [String.mk (serializeAll (evs ++ [(t, d)]))] =
      ((evs.map fun e => evDispatch e.1 e.2).flatten) ++ [c] := by
    simp only [decodeReads, List.map_cons, List.map_nil, List.flatten_cons,
      List.flatten_nil, List.append_nil, processRead, toList_mk]
    rw [decode_serializeAll _ _ hwf2]
    simp [hterm]
  have hflat : ((evs.map fun e => evDispatch e.1 e.2).flatten).all
      (fun x => !(isTerminalCall x)) = true := by
    rw [List.all_eq_true]
    intro x hx
    rcases List.mem_flatten.1 hx with ⟨l, hl, hxl⟩
    rcases List.mem_map.1 hl with ⟨e, he, rfl⟩
    have := hpre e he
    rw [List.all_eq_true] at this
    exact this x hxl
  refine ⟨hdec, ?_, ?_⟩
  · rw [hdec]
    exact noCallAfterTerminal_append_singleton _ hflat c
  · rw [hdec, List.countP_append]
    have h0 : ((evs.map fun e => evDispatch e.1 e.2).flatten).countP isTerminalCall = 0 := by
      rw [List.countP_eq_zero]
      intro a ha
      have := List.all_eq_true.1 hflat a ha
      simp only [Bool.not_eq_true'] at this
      simp [this]
    rw [h0]
    cases hc : isTerminalCall c <;> simp [List.countP_cons, List.countP_nil, hc]

/-- Witness for the amended C2 on a concrete chunk-then-complete stream. -/
theorem c2_decoder_dispatches_in_order_witness :
    decodeReads [String.mk (serializeAll ([("answer_chunk".toList, jsonChunkData "hi".toList)] ++
        [completeEv]))] =
      (([("answer_chunk".toList, jsonChunkData "hi".toList)].map
          fun e => evDispatch e.1 e.2).flatten) ++
        [HandlerCall.complete (JsVal.arr []) (some (JsVal.str "s"))] ∧
    noCallAfterTerminal (decodeReads [String.mk
      (serializeAll ([("answer_chunk".toList, jsonChunkData "hi".toList)] ++ [completeEv]))]) =
      true ∧
    (decodeReads [String.mk (serializeAll ([("answer_chunk".toList, jsonChunkData "hi".toList)]
        ++ [completeEv]))]).countP isTerminalCall ≤ 1 := by
  exact c2_decoder_dispatches_in_order
    [("answer_chunk".toList, jsonChunkData "hi".toList)]
    completeEv.1 completeEv.2
    (HandlerCall.complete (JsVal.arr []) (some (JsVal.str "s")))
    (by intro e he; simp only [List.mem_singleton] at he; subst he; exact ⟨rfl, rfl⟩)
    rfl rfl
    (by intro e he; simp only [List.mem_singleton] at he; subst he; rfl)
    rfl

/-- C4: an event block whose data line fails to parse as JSON is dropped —
no handler is invoked for it — and decoding continues identically on the rest
of the stream, whatever the (recognized or not) event type is. -/
theorem c4_malformed_event_dropped
    (ev t d : List Char) (rest : List Char)
    (ht : noNl t = true) (hd : noNl d = true)
    (hbad : jsonParse (jsTrim d) = none) :
    processLines ev (splitOnNl (serializeEvent t d ++ rest)) =
      processLines (jsTrim t) (splitOnNl rest) := by
  rw [splitOnNl_serializeEvent t d rest ht hd, processLines_eventBlock]
  have hz : evDispatch t d = [] := by
    unfold evDispatch dispatchData
    rw [hbad]
    split <;> rfl
  rw [hz]
  rfl

/-- Witness for C4: the malformed block `{"ch` is dropped and the following
well-formed chunk event is still dispatched. -/
theorem c4_malformed_event_dropped_witness :
    jsonParse (jsTrim "\x7b\"ch".toList) = none ∧
    processLines [] (splitOnNl (serializeEvent "answer_chunk".toList "\x7b\"ch".toList ++
        serializeAll [chunkEv "ok".toList])) =
      processLines (jsTrim "answer_chunk".toList)
        (splitOnNl (serializeAll [chunkEv "ok".toList])) ∧
    processLines (jsTrim "answer_chunk".toList)
        (splitOnNl (serializeAll [chunkEv "ok".toList])) =
      [HandlerCall.chunk (JsVal.str "ok")] := by
  refine ⟨rfl, ?_, rfl⟩
  exact c4_malformed_event_dropped [] "answer_chunk".toList "\x7b\"ch".toList
    (serializeAll [chunkEv "ok".toList]) rfl rfl rfl

/-- The aborted run equals the decode of the delivered prefix plus the single
synthetic cancellation notification from the `catch` block. -/
theorem runReadsAborted_eq :
    ∀ (reads : List String) (n : Nat), n ≤ reads.length →
      runReadsAborted reads n =
        decodeReads (reads.take n) ++ [HandlerCall.error (JsVal.str "Request cancelled")] := by
  intro reads
  induction reads with
  | nil =>
    intro n hn
    have h0 : n = 0 := Nat.le_zero.1 hn
    subst h0
    rfl
  | cons r rs ih =>
    intro n hn
    cases n with
    | zero => rfl
    | succ m =>
      have hm : m ≤ rs.length := Nat.le_of_succ_le_succ hn
      have hrec := ih m hm
      simp only [runReadsAborted, hrec, decodeReads, List.take_succ_cons, List.map_cons,
        List.flatten_cons, List.append_assoc]

/-- C5: aborting after `n` delivered reads (mid-stream) delivers exactly the
prefix's handler calls followed by the one synthetic
`onError('Request cancelled')` from the `catch` block; in particular the
chunks delivered are exactly the prefix's chunks — no later chunk — and no
`onComplete` and no stream-decoded `onError` beyond the prefix ever fires. -/
theorem c5_abort_stops_stream (reads : List String) (n : Nat) (hn : n ≤ reads.length) :
    runReadsAborted reads n =
      decodeReads (reads.take n) ++ [HandlerCall.error (JsVal.str "Request cancelled")] ∧
    (runReadsAborted reads n).filter isChunkCall =
      (decodeReads (reads.take n)).filter isChunkCall ∧
    (runReadsAborted reads n).countP isCompleteCall =
      (decodeReads (reads.take n)).countP isCompleteCall := by
  have h := runReadsAborted_eq reads n hn
  refine ⟨h, ?_, ?_⟩
  · rw [h, List.filter_append,
      show List.filter isChunkCall [HandlerCall.error (JsVal.str "Request cancelled")] =
        [] from rfl,
      List.append_nil]
  · rw [h, List.countP_append,
      show List.countP isCompleteCall [HandlerCall.error (JsVal.str "Request cancelled")] =
        0 from rfl,
      Nat.add_zero]

/-- Witness for C5 on a two-read stream aborted after the first read. -/
theorem c5_abort_stops_stream_witness :
    runReadsAborted
        ["event: answer_chunk\ndata: \x7b\"chunk\":\"a\"\x7d\n\n",
         "event: answer_complete\ndata: \x7b\"sources\":[],\"session_id\":\"s\"\x7d\n\n"] 1 =
      decodeReads ["event: answer_chunk\ndata: \x7b\"chunk\":\"a\"\x7d\n\n"] ++
        [HandlerCall.error (JsVal.str "Request cancelled")] ∧
    (runReadsAborted
        ["event: answer_chunk\ndata: \x7b\"chunk\":\"a\"\x7d\n\n",
         "event: answer_complete\ndata: \x7b\"sources\":[],\"session_id\":\"s\"\x7d\n\n"]
        1).countP isCompleteCall = 0 := by
  have h := c5_abort_stops_stream
    ["event: answer_chunk\ndata: \x7b\"chunk\":\"a\"\x7d\n\n",
     "event: answer_complete\ndata: \x7b\"sources\":[],\"session_id\":\"s\"\x7d\n\n"]
    1 (by decide)
  exact ⟨h.1, by rw [h.2.2]; rfl⟩

/-- C6: `handleStopGeneration` is idempotent — with no in-flight controller it
is a no-op (it never throws: it is a total function of the state), and running
it twice equals running it once. -/
theorem c6_stop_idempotent (s : PageState) :
    (s.abortController = none → handleStopGeneration s = s) ∧
    handleStopGeneration (handleStopGeneration s) = handleStopGeneration s := by
  cases s with
  | mk msgs sid str cur ac =>
    cases ac with
    | none => exact ⟨fun _ => rfl, rfl⟩
    | some c => exact ⟨fun h => by simp at h, rfl⟩

/-- Witness for C6: stopping with a null controller changes nothing. -/
theorem c6_stop_idempotent_witness :
    handleStopGeneration ⟨[], "", false, "", none⟩ = ⟨[], "", false, "", none⟩ :=
  (c6_stop_idempotent ⟨[], "", false, "", none⟩).1 rfl

/-- C9: at most one request is in flight — while `isStreaming` the submit
handler refuses (state unchanged), a submit that does anything starts from a
non-streaming state and enters the streaming state, and every terminal event
(complete, error, or stop with a live controller) resets `isStreaming`. -/
theorem c9_single_flight (s : PageState) (text uid tid ts : String) (ctrl : Nat)
    (tid2 : String) (srcs : JsVal) (err : String) :
    (s.isStreaming = true → stepPage s (PageEvent.submit text uid tid ts ctrl) = s) ∧
    (stepPage s (PageEvent.submit text uid tid ts ctrl) ≠ s →
      s.isStreaming = false ∧
        (stepPage s (PageEvent.submit text uid tid ts ctrl)).isStreaming = true) ∧
    (stepPage s (PageEvent.streamComplete tid2 srcs)).isStreaming = false ∧
    (stepPage s (PageEvent.streamError tid2 err)).isStreaming = false ∧
    (s.abortController ≠ none → (stepPage s PageEvent.stop).isStreaming = false) := by
  have p1 : s.isStreaming = true → stepPage s (PageEvent.submit text uid tid ts ctrl) = s := by
    intro h
    simp [stepPage, chatInputSubmit, h]
  refine ⟨p1, ?_, rfl, rfl, ?_⟩
  · intro hne
    cases hstr : s.isStreaming with
    | true => exact absurd (p1 hstr) hne
    | false =>
      refine ⟨rfl, ?_⟩
      cases hq : chatInputSubmit text false false with
      | none =>
        exact absurd (by simp [stepPage, hstr, hq]) hne
      | some q =>
        simp [stepPage, hstr, hq]
  · intro h
    cases hac : s.abortController with
    | none => exact absurd hac h
    | some c => simp [stepPage, handleStopGeneration, hac]

/-- Witness for C9: a submit while streaming is refused. -/
theorem c9_single_flight_witness :
    stepPage ⟨[], "sid", true, "", some 0⟩ (PageEvent.submit "hello" "u" "t" "ts" 1) =
      ⟨[], "sid", true, "", some 0⟩ :=
  (c9_single_flight ⟨[], "sid", true, "", some 0⟩ "hello" "u" "t" "ts" 1 "t2"
    (JsVal.arr []) "e").1 rfl

/-- `dropWhile` is idempotent. -/
theorem dropWhile_dropWhile (p : Char → Bool) (l : List Char) :
    (l.dropWhile p).dropWhile p = l.dropWhile p := by
  induction l with
  | nil => rfl
  | cons c t ih =>
    cases hc : p c with
    | true => simpa [List.dropWhile_cons, hc] using ih
    | false => simp [List.dropWhile_cons, hc]

/-- The head surviving a `dropWhile` fails the predicate. -/
theorem edgeOk_dropWhile (l : List Char) : edgeOk (l.dropWhile isJsWs) = true := by
  induction l with
  | nil => rfl
  | cons c t ih =>
    cases hc : isJsWs c with
    | true => simpa [List.dropWhile_cons, hc] using ih
    | false => simp [List.dropWhile_cons, hc, edgeOk]

/-- `dropWhile` keeps the last element when it returns anything. -/
theorem getLast?_dropWhile (p : Char → Bool) (l : List Char)
    (h : l.dropWhile p ≠ []) : (l.dropWhile p).getLast? = l.getLast? := by
  induction l with
  | nil => exact absurd rfl h
  | cons c t ih =>
    cases hc : p c with
    | false => simp [List.dropWhile_cons, hc]
    | true =>
      have hd : t.dropWhile p ≠ [] := by
        simpa [List.dropWhile_cons, hc] using h
      rw [List.dropWhile_cons_of_pos hc, ih hd]
      cases t with
      | nil => exact absurd rfl hd
      | cons b t2 => simp [List.getLast?_cons_cons]

/-- The first character of a trimmed string is not whitespace. -/
theorem head?_jsTrim (cs : List Char) :
    ∀ c, (jsTrim cs).head? = some c → isJsWs c = false := by
  intro c h
  rw [show jsTrim cs =
    (((cs.dropWhile isJsWs).reverse).dropWhile isJsWs).reverse from rfl] at h
  rw [List.head?_reverse] at h
  have hne : ((cs.dropWhile isJsWs).reverse).dropWhile isJsWs ≠ [] := by
    intro h0
    rw [h0] at h
    simp at h
  rw [getLast?_dropWhile _ _ hne, List.getLast?_reverse] at h
  have hA := edgeOk_dropWhile cs
  cases hx : cs.dropWhile isJsWs with
  | nil => rw [hx] at h; simp at h
  | cons a t =>
    rw [hx] at h
    simp only [List.head?_cons, Option.some.injEq] at h
    subst h
    rw [hx] at hA
    simpa [edgeOk] using hA

/-- A trimmed string has no leading whitespace. -/
theorem edgeOk_jsTrim (cs : List Char) : edgeOk (jsTrim cs) = true := by
  cases hx : jsTrim cs with
  | nil => rfl
  | cons c t =>
    have h : (jsTrim cs).head? = some c := by rw [hx]; rfl
    have := head?_jsTrim cs c h
    simp [edgeOk, this]

/-- A trimmed string has no trailing whitespace. -/
theorem edgeOk_jsTrim_rev (cs : List Char) : edgeOk (jsTrim cs).reverse = true := by
  have h : (jsTrim cs).reverse = ((cs.dropWhile isJsWs).reverse).dropWhile isJsWs := by
    simp [jsTrim]
  rw [h]
  exact edgeOk_dropWhile _

/-- C7: whenever `ChatInput.handleSubmit` sends, the question sent is the
trimmed input, which is non-empty and carries no leading or trailing
whitespace. -/
theorem c7_submit_nonempty_trimmed (message q : String) (isLoading isDisabled : Bool)
    (h : chatInputSubmit message isLoading isDisabled = some q) :
    q = jsTrimS message ∧ ¬ (q = "") ∧
    edgeOk q.toList = true ∧ edgeOk q.toList.reverse = true := by
  unfold chatInputSubmit at h
  split at h
  case isTrue hc =>
    have hq : q = jsTrimS message := by
      exact (Option.some.injEq _ _ ▸ h.symm :)
    subst hq
    have hne : ¬ (jsTrimS message = "") := by
      have ha : (!(jsTrimS message == "")) = true := by
        simp only [Bool.and_eq_true] at hc
        tauto
      simpa using ha
    refine ⟨rfl, hne, ?_, ?_⟩
    · rw [show (jsTrimS message).toList = jsTrim message.toList from rfl]
      exact edgeOk_jsTrim _
    · rw [show (jsTrimS message).toList = jsTrim message.toList from rfl]
      exact edgeOk_jsTrim_rev _
  case isFalse => exact absurd h (by simp)

/-- Witness for C7 on the input `"  hi "`. -/
theorem c7_submit_nonempty_trimmed_witness :
    "hi" = jsTrimS "  hi " ∧ ¬ ("hi" = "") ∧
    edgeOk "hi".toList = true ∧ edgeOk "hi".toList.reverse = true :=
  c7_submit_nonempty_trimmed "  hi " "hi" false false rfl

/-- C8 counterexample: the claim says the history is all prior messages
"excluding error and cancellation placeholders"; the code instead excludes
every message whose text *contains* a placeholder fragment, so a genuine user
message containing the fragment is silently dropped from the history. -/
theorem c8_counterexample :
    chatHistoryOf [oddUserMsg] = [] ∧
    chatHistorySpec [oddUserMsg] =
      [⟨"user", "Sorry, I encountered an error", "2024-01-01T00:00:00Z"⟩] ∧
    ¬ (chatHistoryOf [oddUserMsg] = chatHistorySpec [oddUserMsg]) := by
  refine ⟨rfl, rfl, ?_⟩
  decide

/-- C8 (amended): the `chat_history` sent with each request is an ordered
subsequence of the prior messages — never reordered — consisting exactly of
the messages whose text contains neither placeholder fragment, each mapped to
role `user` iff it was a user message, with its content and original
timestamp. -/
theorem c8_history_order_roles (msgs : List Msg) :
    List.Sublist (chatHistoryOf msgs) (msgs.map toTurn) ∧
    (∀ m ∈ msgs, isExcludedMsg m = false → toTurn m ∈ chatHistoryOf msgs) ∧
    (∀ t ∈ chatHistoryOf msgs, ∃ m, m ∈ msgs ∧ isExcludedMsg m = false ∧ t = toTurn m ∧
      (t.role = "user" ↔ m.isUser = true) ∧ t.content = m.message ∧
      t.timestamp = m.timestamp) := by
  refine ⟨?_, ?_, ?_⟩
  · exact List.Sublist.map toTurn (List.filter_sublist msgs)
  · intro m hm hex
    exact List.mem_map_of_mem toTurn (List.mem_filter.2 ⟨hm, by simp [hex]⟩)
  · intro t ht
    rcases List.mem_map.1 ht with ⟨m, hm, rfl⟩
    rcases List.mem_filter.1 hm with ⟨hm2, hp⟩
    refine ⟨m, hm2, by simpa using hp, rfl, ?_, rfl, rfl⟩
    cases hu : m.isUser with
    | true => simp [toTurn, hu]
    | false => simp [toTurn, hu]

/-- Witness for the amended C8: an ordinary message is kept in the history. -/
theorem c8_history_order_roles_witness :
    toTurn plainUserMsg ∈ chatHistoryOf [plainUserMsg] :=
  (c8_history_order_roles [plainUserMsg]).2.1 plainUserMsg (by simp) rfl

/-- C10: handlers are gated on truthy payload fields — with a falsy `chunk`
field (in particular the empty string) an `answer_chunk` event produces no
call at all; with a falsy/absent `sources` field an `answer_complete` event
produces no call; with `sources` present (an empty array is truthy) the
complete call is delivered; every delivered chunk call carries the truthy
`chunk` field of an `answer_chunk` event.  The last two conjuncts evaluate
the full decoder on an empty-chunk event and an empty-sources complete. -/
theorem c10_truthy_dispatch (ev : List Char) (j : JsVal) :
    (jsTruthy (jsGet j "chunk") = false → dispatchParsed "answer_chunk".toList j = []) ∧
    (jsGet j "chunk" = some (JsVal.str "") → dispatchParsed "answer_chunk".toList j = []) ∧
    (jsTruthy (jsGet j "sources") = false → dispatchParsed "answer_complete".toList j = []) ∧
    (∀ s, jsGet j "sources" = some (JsVal.arr s) →
      dispatchParsed "answer_complete".toList j =
        [HandlerCall.complete (JsVal.arr s) (jsGet j "session_id")]) ∧
    (∀ v, HandlerCall.chunk v ∈ dispatchParsed ev j →
      jsGet j "chunk" = some v ∧ jsTruthyV v = true ∧ ev = "answer_chunk".toList) ∧
    decodeReads ["event: answer_chunk\ndata: \x7b\"chunk\":\"\"\x7d\n\n"] =
      ([] : List HandlerCall) ∧
    decodeReads
        ["event: answer_complete\ndata: \x7b\"sources\":[],\"session_id\":\"s\"\x7d\n\n"] =
      [HandlerCall.complete (JsVal.arr []) (some (JsVal.str "s"))] := by
  have p1 : jsTruthy (jsGet j "chunk") = false →
      dispatchParsed "answer_chunk".toList j = [] := by
    intro h
    unfold dispatchParsed
    rw [h]
    rfl
  refine ⟨p1, ?_, ?_, ?_, ?_, rfl, rfl⟩
  · intro h
    exact p1 (by rw [h]; rfl)
  · intro h
    unfold dispatchParsed
    rw [h]
    rfl
  · intro s h
    unfold dispatchParsed
    rw [h]
    rfl
  · intro v hv
    unfold dispatchParsed at hv
    split at hv
    case isTrue hc =>
      rw [Bool.and_eq_true] at hc
      rcases hc with ⟨hev, htr⟩
      have hev2 : ev = "answer_chunk".toList := by simpa using hev
      cases hg : jsGet j "chunk" with
      | none => rw [hg] at htr; simp [jsTruthy] at htr
      | some w =>
        rw [hg] at hv htr
        simp only [Option.getD_some, List.mem_singleton, HandlerCall.chunk.injEq] at hv
        subst hv
        exact ⟨rfl, by simpa [jsTruthy] using htr, hev2⟩
    case isFalse =>
      split at hv
      case isTrue => simp at hv
      case isFalse =>
        split at hv
        case isTrue => simp at hv
        case isFalse => simp at hv

/-- Witness for C10: an `answer_chunk` payload whose `chunk` is the empty
string is dropped. -/
theorem c10_truthy_dispatch_witness :
    dispatchParsed "answer_chunk".toList (JsVal.obj [("chunk", JsVal.str "")]) = [] :=
  (c10_truthy_dispatch "answer_chunk".toList (JsVal.obj [("chunk", JsVal.str "")])).1 rfl

/-- The string reader consumes an escape-free body up to its closing quote. -/
theorem pStrChars_clean (body : List Char) (h : body.all cleanChar = true)
    (tail : List Char) : pStrChars (body ++ '"' :: tail) = some (body, tail) := by
  induction body with
  | nil => rfl
  | cons x cr ih =>
    simp only [List.all_cons, Bool.and_eq_true] at h
    have hx := h.1
    simp only [cleanChar, Bool.and_eq_true, Bool.not_eq_true'] at hx
    have hq : (x == '"') = false := by tauto
    have hb : (x == '\\') = false := by tauto
    simp [pStrChars, hq, hb, ih h.2]

/-- A chunk payload text starts with `{` and ends with `}`, so trimming it is
the identity whatever the chunk body is. -/
theorem jsTrim_jsonChunkData (body : List Char) :
    jsTrim (jsonChunkData body) = jsonChunkData body := by
  have h1 : (jsonChunkData body).dropWhile isJsWs = jsonChunkData body := by
    rw [show jsonChunkData body =
      '\x7b' :: ("\"chunk\":\"".toList ++ body ++ "\"\x7d".toList) from rfl]
    exact List.dropWhile_cons_of_neg (by decide)
  have h2 : (jsonChunkData body).reverse =
      '\x7d' :: '"' :: ("\x7b\"chunk\":\"".toList ++ body).reverse := by
    rw [show jsonChunkData body =
      ("\x7b\"chunk\":\"".toList ++ body) ++ "\"\x7d".toList from rfl]
    rw [List.reverse_append]
    rfl
  have h3 : ((jsonChunkData body).reverse).dropWhile isJsWs = (jsonChunkData body).reverse := by
    rw [h2]
    exact List.dropWhile_cons_of_neg (by decide)
  unfold jsTrim
  rw [h1, h3, List.reverse_reverse]

/-- The value reader on a JSON string literal with an escape-free body. -/
theorem pVal_str (f : Nat) (body tail : List Char) (h : body.all cleanChar = true) :
    pVal (f + 1) ('"' :: (body ++ '"' :: tail)) =
      some (JsVal.str (String.mk body), tail) := by
  have key := pStrChars_clean body h tail
  show (match pStrChars (body ++ '"' :: tail) with
        | some (s, r) => some (JsVal.str (String.mk s), r)
        | none => none) = some (JsVal.str (String.mk body), tail)
  rw [key]

/-- The object-entry reader on the single entry `"chunk":"<body>"` up to the
closing brace. -/
theorem pObjItems_chunk (f : Nat) (body : List Char) (h : body.all cleanChar = true) :
    pObjItems (f + 2)
        ('"' :: 'c' :: 'h' :: 'u' :: 'n' :: 'k' :: '"' :: ':' :: '"' ::
          (body ++ '"' :: '\x7d' :: [])) =
      some ([("chunk", JsVal.str (String.mk body))], []) := by
  have key := pVal_str f body ('\x7d' :: []) h
  show (match pVal (f + 1) ('"' :: (body ++ '"' :: '\x7d' :: [])) with
        | some (v, r3) =>
          (match dropWs r3 with
           | ',' :: r4 =>
             (match pObjItems (f + 1) r4 with
              | some (kvs, r5) => some (("chunk", v) :: kvs, r5)
              | none => none)
           | '\x7d' :: r4 => some ([("chunk", v)], r4)
           | _ => none)
        | none => none) = some ([("chunk", JsVal.str (String.mk body))], [])
  rw [key]
  rfl

/-- The value reader on a whole chunk payload object. -/
theorem pVal_chunkObj (f : Nat) (body : List Char) (h : body.all cleanChar = true) :
    pVal (f + 3) (jsonChunkData body) =
      some (JsVal.obj [("chunk", JsVal.str (String.mk body))], []) := by
  have key := pObjItems_chunk f body h
  show (match pObjItems (f + 2)
        ('"' :: 'c' :: 'h' :: 'u' :: 'n' :: 'k' :: '"' :: ':' :: '"' ::
          (body ++ '"' :: '\x7d' :: [])) with
        | some (kvs, r2) => some (JsVal.obj kvs, r2)
        | none => none) =
      some (JsVal.obj [("chunk", JsVal.str (String.mk body))], [])
  rw [key]

/-- `JSON.parse` on a chunk payload text. -/
theorem jsonParse_chunkData (body : List Char) (h : body.all cleanChar = true) :
    jsonParse (jsonChunkData body) =
      some (JsVal.obj [("chunk", JsVal.str (String.mk body))]) := by
  unfold jsonParse
  have hlen : (jsonChunkData body).length + 1 = (body.length + 10) + 3 := by
    simp [jsonChunkData]
  rw [hlen, pVal_chunkObj (body.length + 10) body h]
  rfl

/-- Clean chunk bodies contain no newline. -/
theorem noNl_of_clean (body : List Char) (h : body.all cleanChar = true) :
    noNl body = true := by
  rw [noNl, List.all_eq_true]
  intro x hx
  have hx2 := List.all_eq_true.1 h x hx
  simp only [cleanChar, Bool.and_eq_true, Bool.not_eq_true'] at hx2
  simp only [Bool.not_eq_true']
  tauto

/-- The dispatch of a serialized chunk event: the chunk text is delivered to
`onChunk` exactly when it is non-empty (an empty chunk is falsy, C10). -/
theorem evDispatch_chunkEv (body : List Char) (h : body.all cleanChar = true) :
    evDispatch (chunkEv body).1 (chunkEv body).2 =
      if body = [] then [] else [HandlerCall.chunk (JsVal.str (String.mk body))] := by
  show dispatchData (jsTrim "answer_chunk".toList) (jsonChunkData body) = _
  unfold dispatchData
  rw [jsTrim_jsonChunkData, jsonParse_chunkData body h]
  cases body with
  | nil => rfl
  | cons x xs => rfl

/-- A whole chunk event block has newline-free fields. -/
theorem noNl_jsonChunkData (b : List Char) (h : b.all cleanChar = true) :
    noNl (jsonChunkData b) = true := by
  have hb := noNl_of_clean b h
  rw [show jsonChunkData b =
    ("\x7b\"chunk\":\"".toList ++ b) ++ "\"\x7d".toList from rfl]
  rw [noNl_append, noNl_append, hb]
  rfl

/-- `chunkTexts` distributes over append. -/
theorem chunkTexts_append (a b : List HandlerCall) :
    chunkTexts (a ++ b) = chunkTexts a ++ chunkTexts b := by
  induction a with
  | nil => rfl
  | cons c r ih =>
    cases c with
    | chunk v => cases v <;> simp [chunkTexts, ih]
    | complete s sid => simp [chunkTexts, ih]
    | error v => simp [chunkTexts, ih]

/-- The chunk texts of a flattened list of per-chunk dispatches are the
non-empty chunk bodies, in order. -/
theorem chunkTexts_chunkFlatten (cs : List (List Char)) :
    chunkTexts ((cs.map fun b =>
        if b = [] then [] else [HandlerCall.chunk (JsVal.str (String.mk b))]).flatten) =
      (cs.filter fun b => !(b.isEmpty)).map fun b => String.mk b := by
  induction cs with
  | nil => rfl
  | cons b r ih =>
    cases b with
    | nil => simpa [chunkTexts, List.filter_cons] using ih
    | cons x xs => simp [chunkTexts, List.filter_cons, ih]

/-- String append agrees with list append of the character data. -/
theorem mk_append (a b : List Char) : String.mk a ++ String.mk b = String.mk (a ++ b) := rfl

/-- Concatenating the non-empty bodies equals concatenating all bodies. -/
theorem strConcat_filterMap (cs : List (List Char)) :
    strConcat ((cs.filter fun b => !(b.isEmpty)).map fun b => String.mk b) =
      String.mk cs.flatten := by
  induction cs with
  | nil => rfl
  | cons b r ih =>
    cases b with
    | nil => simpa [List.filter_cons, List.flatten_cons] using ih
    | cons x xs =>
      simp only [List.filter_cons, show (!(List.isEmpty (x :: xs))) = true from rfl,
        if_true, List.map_cons, show ∀ s l, strConcat (s :: l) = s ++ strConcat l
          from fun _ _ => rfl, ih, mk_append, List.flatten_cons]

/-- `find?` skips a block of non-matching elements. -/
theorem find?_append_neg (l1 l2 : List Msg) (p : Msg → Bool)
    (h : ∀ m ∈ l1, p m = false) : (l1 ++ l2).find? p = l2.find? p := by
  induction l1 with
  | nil => rfl
  | cons m r ih =>
    rw [List.cons_append, List.find?_cons_of_neg _ (by simp [h m (by simp)])]
    exact ih fun m' hm' => h m' (by simp [hm'])

/-- One `onChunk` update appends the chunk to the temporary message and
leaves every other message unchanged. -/
theorem onChunkUpdate_temp (tid ts : String) (msgs0 : List Msg)
    (hid : ∀ m ∈ msgs0, (m.id == tid) = false) (acc chunk : String) :
    onChunkUpdate tid (msgs0 ++ [⟨tid, acc, false, ts, none, true⟩]) chunk =
      msgs0 ++ [⟨tid, acc ++ chunk, false, ts, none, true⟩] := by
  unfold onChunkUpdate
  have hfind : (msgs0 ++ [(⟨tid, acc, false, ts, none, true⟩ : Msg)]).find?
      (fun x => x.id == tid) = some ⟨tid, acc, false, ts, none, true⟩ := by
    rw [find?_append_neg msgs0 _ _ hid]
    exact List.find?_cons_of_pos _ (by simp)
  simp only [hfind, List.map_append]
  congr 1
  · have h2 : ∀ m ∈ msgs0,
        (if m.id == tid then ({ m with message := acc ++ chunk } : Msg) else m) = m := by
      intro m hm
      simp [hid m hm]
    calc msgs0.map (fun m =>
          if m.id == tid then ({ m with message := acc ++ chunk } : Msg) else m)
        = msgs0.map id := List.map_congr_left h2
      _ = msgs0 := List.map_id msgs0
  · simp

/-- Folding the delivered chunk texts over `onChunk` accumulates their
concatenation on the temporary message. -/
theorem foldl_onChunkUpdate (tid ts : String) (msgs0 : List Msg)
    (hid : ∀ m ∈ msgs0, (m.id == tid) = false) :
    ∀ (texts : List String) (acc : String),
      texts.foldl (onChunkUpdate tid) (msgs0 ++ [⟨tid, acc, false, ts, none, true⟩]) =
        msgs0 ++ [⟨tid, acc ++ strConcat texts, false, ts, none, true⟩] := by
  intro texts
  induction texts with
  | nil =>
    intro acc
    simp [strConcat]
  | cons t r ih =>
    intro acc
    rw [List.foldl_cons, onChunkUpdate_temp tid ts msgs0 hid acc t, ih (acc ++ t),
      show strConcat (t :: r) = t ++ strConcat r from rfl, String.append_assoc]

/-- The `onComplete` update attaches the sources to the temporary message,
clears its streaming flag, and leaves its text and the other messages
unchanged. -/
theorem onCompleteUpdate_temp (tid ts : String) (msgs0 : List Msg)
    (hid : ∀ m ∈ msgs0, (m.id == tid) = false) (msgtext : String) (srcs : JsVal) :
    onCompleteUpdate tid srcs (msgs0 ++ [⟨tid, msgtext, false, ts, none, true⟩]) =
      msgs0 ++ [⟨tid, msgtext, false, ts, some srcs, false⟩] := by
  unfold onCompleteUpdate
  rw [List.map_append]
  congr 1
  · have h2 : ∀ m ∈ msgs0,
        (if m.id == tid then
          ({ m with sources := some srcs, isStreaming := false } : Msg) else m) = m := by
      intro m hm
      simp [hid m hm]
    calc msgs0.map (fun m =>
          if m.id == tid then
            ({ m with sources := some srcs, isStreaming := false } : Msg) else m)
        = msgs0.map id := List.map_congr_left h2
      _ = msgs0 := List.map_id msgs0
  · simp

/-- C3: for a stream of chunk events `c1..cn` followed by a complete event,
the text `ChatPage` accumulates on the temporary assistant message via its
`onChunk` handler, after the complete event settles it, is exactly
`c1 ++ ... ++ cn` in order — no gap, no duplication (empty chunks are dropped
by the decoder but contribute nothing to the concatenation). -/
theorem c3_chunks_concatenate (cs : List (List Char))
    (hcs : ∀ b ∈ cs, b.all cleanChar = true)
    (msgs0 : List Msg) (tid ts : String)
    (hid : ∀ m ∈ msgs0, (m.id == tid) = false) :
    ((onCompleteUpdate tid (JsVal.arr [])
        ((chunkTexts (decodeReads
            [String.mk (serializeAll (cs.map chunkEv ++ [completeEv]))])).foldl
          (onChunkUpdate tid) (msgs0 ++ [tempMsg tid ts]))).find?
        (fun m => m.id == tid)).map (fun m => m.message) =
      some (String.mk cs.flatten) := by
  have hwf : evsWf (cs.map chunkEv ++ [completeEv]) := by
    intro e he
    rcases List.mem_append.1 he with h1 | h1
    · rcases List.mem_map.1 h1 with ⟨b, hb, rfl⟩
      exact ⟨rfl, noNl_jsonChunkData b (hcs b hb)⟩
    · simp only [List.mem_singleton] at h1
      subst h1
      exact ⟨rfl, rfl⟩
  have hdec : decodeReads [String.mk (serializeAll (cs.map chunkEv ++ [completeEv]))] =
      ((cs.map chunkEv ++ [completeEv]).map fun e => evDispatch e.1 e.2).flatten := by
    simp only [decodeReads, List.map_cons, List.map_nil, List.flatten_cons,
      List.flatten_nil, List.append_nil, processRead, toList_mk]
    exact decode_serializeAll _ [] hwf
  have hmap : (cs.map chunkEv).map (fun e => evDispatch e.1 e.2) =
      cs.map fun b =>
        if b = [] then [] else [HandlerCall.chunk (JsVal.str (String.mk b))] := by
    rw [List.map_map]
    exact List.map_congr_left fun b hb => evDispatch_chunkEv b (hcs b hb)
  have htrace : ((cs.map chunkEv ++ [completeEv]).map fun e => evDispatch e.1 e.2).flatten =
      (cs.map fun b =>
        if b = [] then [] else [HandlerCall.chunk (JsVal.str (String.mk b))]).flatten ++
        [HandlerCall.complete (JsVal.arr []) (some (JsVal.str "s"))] := by
    rw [List.map_append, List.flatten_append, hmap]
    rfl
  have htexts : chunkTexts (decodeReads
      [String.mk (serializeAll (cs.map chunkEv ++ [completeEv]))]) =
      (cs.filter fun b => !(b.isEmpty)).map fun b => String.mk b := by
    rw [hdec, htrace, chunkTexts_append, chunkTexts_chunkFlatten,
      show chunkTexts [HandlerCall.complete (JsVal.arr []) (some (JsVal.str "s"))] = []
        from rfl,
      List.append_nil]
  rw [htexts,
    show tempMsg tid ts = (⟨tid, "", false, ts, none, true⟩ : Msg) from rfl,
    foldl_onChunkUpdate tid ts msgs0 hid _ "",
    strConcat_filterMap, String.empty_append,
    onCompleteUpdate_temp tid ts msgs0 hid _ _,
    find?_append_neg msgs0 _ _ hid,
    List.find?_cons_of_pos _ (by simp)]
  rfl

/-- Witness for C3 on the chunks `["hi", "", "!"]`. -/
theorem c3_chunks_concatenate_witness :
    ((onCompleteUpdate "t0" (JsVal.arr [])
        ((chunkTexts (decodeReads
            [String.mk (serializeAll
              ([['h', 'i'], [], ['!']].map chunkEv ++ [completeEv]))])).foldl
          (onChunkUpdate "t0") ([] ++ [tempMsg "t0" "ts0"]))).find?
        (fun m => m.id == "t0")).map (fun m => m.message) =
      some (String.mk [['h', 'i'], [], ['!']].flatten) :=
  c3_chunks_concatenate [['h', 'i'], [], ['!']] (by decide) [] "t0" "ts0"
    (fun m hm => absurd hm (List.not_mem_nil m))

end CryptoNews
